import Mathlib

/-!
Verification of the SignBridge chat client, a two-party messaging web
application over a hosted relational backend with realtime change feeds.
The definitions below are a shallow embedding of the message-synchronization
logic of the chat page (`Chat.tsx`), of the conversation bootstrap in the
online-users panel, and of the backend queries those handlers issue.
Timestamps are modelled as natural numbers, row identifiers as strings, and
each backend table as a list of row records in insertion order.
-/

namespace SignBridge

/-- The JavaScript `String.prototype.trim` used by the send guard, modelled
on the character list: strip whitespace from both ends. -/
def jsTrim (s : String) : String :=
  String.mk (((s.data.dropWhile Char.isWhitespace).reverse.dropWhile Char.isWhitespace).reverse)

/-- A reaction entry as the client holds it (the `Reaction` interface of
`Chat.tsx`): emoji glyph, reacting user, count. -/
structure Reaction where
  emoji : String
  user_id : String
  count : Int
deriving DecidableEq, Repr

/-- A raw reaction entry as read from the `reactions` jsonb column: any of
the three fields may be absent or null, modelled as `none`. -/
structure RawReaction where
  emoji : Option String
  user_id : Option String
  count : Option Int
deriving DecidableEq, Repr

/-- The JavaScript coercion `r.count || 1` in the initial-load normalization:
a missing count - or a zero count, which is falsy - becomes 1. -/
def coerceCount : Option Int → Int
  | none => 1
  | some c => if c = 0 then 1 else c

/-- The per-entry coercion of the initial-load normalization
(`fetchMessages` in `Chat.tsx`):
`{ emoji: r.emoji || "", user_id: r.user_id || "", count: r.count || 1 }`.
A missing string field becomes the empty string (an empty string is falsy in
JavaScript, so `x || ""` and defaulting the missing case to `""` agree). -/
def coerceReaction (r : RawReaction) : Reaction :=
  { emoji := r.emoji.getD ""
    user_id := r.user_id.getD ""
    count := coerceCount r.count }

/-- A row of the `messages` table, with the columns of the base migration
plus the later additions (`edited_at`, `parent_message_id`, `is_pinned`,
`reactions`, `is_deleted`, `deleted_at`).  The `reactions` jsonb column is
`none` when it does not hold an array (the `Array.isArray` check fails). -/
structure MessageRow where
  id : String
  conversation_id : String
  sender_id : String
  content : String
  message_type : String
  translation : Option String
  created_at : Nat
  is_read : Bool
  edited_at : Option Nat
  parent_message_id : Option String
  is_pinned : Bool
  reactions : Option (List RawReaction)
  is_deleted : Bool
  deleted_at : Option Nat
deriving DecidableEq, Repr

/-- A message as held in the local state of the chat page (the `Message`
interface of `Chat.tsx`, plus the `conversation_id` column that the
`select("*")` row carries at runtime): reactions are an actual list here. -/
structure Message where
  id : String
  conversation_id : String
  sender_id : String
  content : String
  message_type : String
  translation : Option String
  created_at : Nat
  is_read : Bool
  edited_at : Option Nat
  parent_message_id : Option String
  is_pinned : Bool
  reactions : List Reaction
  is_deleted : Bool
deriving DecidableEq, Repr

/-- The row normalization of the initial load (the `.map` body of
`fetchMessages`): copy every column and coerce the `reactions` column,
turning a non-array value into the empty list. -/
def normalizeRow (m : MessageRow) : Message :=
  { id := m.id
    conversation_id := m.conversation_id
    sender_id := m.sender_id
    content := m.content
    message_type := m.message_type
    translation := m.translation
    created_at := m.created_at
    is_read := m.is_read
    edited_at := m.edited_at
    parent_message_id := m.parent_message_id
    is_pinned := m.is_pinned
    reactions := match m.reactions with
      | some rs => rs.map coerceReaction
      | none => []
    is_deleted := m.is_deleted }

/-- The row order requested by the initial-load query:
`.order("created_at", { ascending: true })`. -/
def createdLe (a b : MessageRow) : Prop := a.created_at ≤ b.created_at

instance : DecidableRel createdLe := fun a b => Nat.decLe a.created_at b.created_at

instance : IsTrans MessageRow createdLe := ⟨fun _ _ _ h1 h2 => Nat.le_trans h1 h2⟩

instance : IsTotal MessageRow createdLe := ⟨fun a b => Nat.le_total a.created_at b.created_at⟩

/-- The initial load (`fetchMessages` in `Chat.tsx`): select the rows of the
conversation whose soft-delete flag is unset, ordered ascending by creation
timestamp, then normalize the reactions of each row. -/
def fetchMessages (table : List MessageRow) (conv : String) : List Message :=
  (List.insertionSort createdLe
      (table.filter (fun m => m.conversation_id == conv && !m.is_deleted))).map
    normalizeRow

/-- The local component state of the chat page read and written by the send,
delete and realtime-merge handlers. -/
structure ChatState where
  messages : List Message
  newMessage : String
  isSending : Bool
  editingMessageId : Option String
  replyingTo : Option Message
deriving DecidableEq, Repr

/-- `setMessages(...)` at the end of the initial load: the fetched sequence
replaces the local sequence wholesale; no merge with the previous value. -/
def loadMessages (s : ChatState) (table : List MessageRow) (conv : String) : ChatState :=
  { s with messages := fetchMessages table conv }

/-- A mutation request issued by the chat page to the backend, in the order
the handler awaits them. -/
inductive Request where
  | insertMessage (conversation_id sender_id content message_type : String)
      (parent_message_id : Option String) : Request
  | updateMessageContent (id content : String) (edited_at : Nat) : Request
  | deleteTypingReq (conversation_id user_id : String) : Request
deriving DecidableEq, Repr

/-- The JavaScript `replyingTo?.id || null` on the insert path: the id of the
reply target when one is set and its id is truthy, else null. -/
def replyParentId : Option Message → Option String
  | none => none
  | some m => if m.id = "" then none else some m.id

/-- `handleSendMessage` in `Chat.tsx`, success path.  Returns the component
state after the handler finishes together with the backend requests it
issued, in order.  The guard rejects a draft that is empty after trimming
and rejects any submission while a prior one is still in flight
(`isSending`); `now` is the instant taken for `new Date().toISOString()`.
The non-reentrancy flag is raised at entry and cleared in the `finally`
block, so it is back to its prior value when the handler returns. -/
def handleSendMessage (s : ChatState) (conv uid : String) (now : Nat) :
    ChatState × List Request :=
  if jsTrim s.newMessage == "" || s.isSending then (s, [])
  else
    match s.editingMessageId with
    | some mid =>
        ({ s with editingMessageId := none, newMessage := "", replyingTo := none },
         [Request.updateMessageContent mid s.newMessage now,
          Request.deleteTypingReq conv uid])
    | none =>
        ({ s with newMessage := "", replyingTo := none },
         [Request.insertMessage conv uid s.newMessage "text" (replyParentId s.replyingTo),
          Request.deleteTypingReq conv uid])

/-- Claim C3: for every input draft whose content is empty after trimming,
and for every submission attempted while a prior send or edit from the same
client is still in flight, the send operation is a no-op: no insert or
update request is issued to the backend and the local state (message
sequence, draft, reply target, edit mode) is unchanged. -/
theorem handleSendMessage_noop_on_empty_or_inflight (s : ChatState) (conv uid : String)
    (now : Nat) (h : jsTrim s.newMessage = "" ∨ s.isSending = true) :
    handleSendMessage s conv uid now = (s, []) := by
  rcases h with h | h <;> simp [handleSendMessage, h]

/-- A state with a non-empty draft but a submission still in flight. -/
def inflightState : ChatState :=
  { messages := []
    newMessage := "pending draft"
    isSending := true
    editingMessageId := none
    replyingTo := none }

/-- Witness for claim C3 at a concrete state whose prior submission is still
in flight: the handler leaves the state untouched and issues nothing. -/
theorem handleSendMessage_noop_on_empty_or_inflight_witness :
    handleSendMessage inflightState "c1" "u1" 7 = (inflightState, []) :=
  handleSendMessage_noop_on_empty_or_inflight inflightState "c1" "u1" 7 (Or.inr rfl)

/-- Claim C10: for every non-empty (post-trim) draft, the send operation
inserts the draft content verbatim, without trimming: the stored message
content is the raw input string including any leading or trailing
whitespace, even though the emptiness guard is evaluated on the trimmed
string. -/
theorem handleSendMessage_inserts_raw_draft (s : ChatState) (conv uid : String) (now : Nat)
    (h1 : jsTrim s.newMessage ≠ "") (h2 : s.isSending = false)
    (h3 : s.editingMessageId = none) :
    (handleSendMessage s conv uid now).2 =
      [Request.insertMessage conv uid s.newMessage "text" (replyParentId s.replyingTo),
       Request.deleteTypingReq conv uid] := by
  simp [handleSendMessage, h1, h2, h3]

/-- A state whose draft carries leading and trailing whitespace. -/
def paddedDraftState : ChatState :=
  { messages := []
    newMessage := "  hi  "
    isSending := false
    editingMessageId := none
    replyingTo := none }

/-- Witness for claim C10 at a concrete padded draft: the issued insert
carries the raw string with its whitespace, which differs from the trimmed
string the guard inspected. -/
theorem handleSendMessage_inserts_raw_draft_witness :
    (handleSendMessage paddedDraftState "c1" "u1" 7).2 =
      [Request.insertMessage "c1" "u1" "  hi  " "text" none,
       Request.deleteTypingReq "c1" "u1"] ∧
    jsTrim "  hi  " ≠ "  hi  " := by
  refine ⟨?_, by decide⟩
  have h := handleSendMessage_inserts_raw_draft paddedDraftState "c1" "u1" 7
    (by decide) rfl rfl
  rw [h]
  decide

/-- The INSERT branch of `subscribeToMessages`: append the new row to the
tail of the local sequence unless its soft-delete flag is set. -/
def mergeInsertEvent (msgs : List Message) (newMsg : Message) : List Message :=
  if newMsg.is_deleted then msgs else msgs ++ [newMsg]

/-- The UPDATE branch of `subscribeToMessages`: replace the entry with the
matching identifier in place, keeping every position. -/
def mergeUpdateEvent (msgs : List Message) (updated : Message) : List Message :=
  msgs.map (fun m => if m.id == updated.id then updated else m)

/-- What the message pane of the chat page renders: one bubble per entry of
the local sequence, in order, showing its content.  The render maps over the
whole sequence; it has no filter on the soft-delete flag. -/
def renderedContents (msgs : List Message) : List String :=
  msgs.map (fun m => m.content)

/-- Modelled from the spec: the "active (non-deleted) view" of a local
message sequence - the entries whose soft-delete flag is unset.  This is the
view the spec says the engine presents; it is compared against
`renderedContents`, which is what the page actually draws. -/
def activeView (msgs : List Message) : List Message :=
  msgs.filter (fun m => !m.is_deleted)

/-- A live message as a peer client holds it before a soft delete arrives. -/
def peerHeldMessage : Message :=
  { id := "m1"
    conversation_id := "c1"
    sender_id := "u1"
    content := "hello"
    message_type := "text"
    translation := none
    created_at := 1
    is_read := false
    edited_at := none
    parent_message_id := none
    is_pinned := false
    reactions := []
    is_deleted := false }

/-- The realtime UPDATE payload produced by a soft delete of that message. -/
def softDeletePayload : Message :=
  { peerHeldMessage with is_deleted := true }

/-- Claim C1, evaluated at the failing input.  A peer client holds the live
copy of message `m1`; the soft delete arrives as an UPDATE event whose row
has `is_deleted = true`.  The merge replaces the local copy in place - it is
neither removed nor hidden: the rendered view, which maps over the whole
sequence with no soft-delete filter, still shows the message content, even
though the spec-modelled non-deleted view excludes it.  The code contradicts
the stated merge contract ("an update arriving after a delete must cause the
local copy to be removed or hidden"). -/
theorem update_merge_keeps_deleted_row_rendered :
    peerHeldMessage.is_deleted = false ∧
    softDeletePayload.is_deleted = true ∧
    mergeUpdateEvent [peerHeldMessage] softDeletePayload = [softDeletePayload] ∧
    renderedContents (mergeUpdateEvent [peerHeldMessage] softDeletePayload) = ["hello"] ∧
    activeView (mergeUpdateEvent [peerHeldMessage] softDeletePayload) = [] := by
  decide

/-- `handleReaction` in `Chat.tsx`, acting on the reaction list of one
message: when the user already has a reaction with this emoji
(`reactions.find(...)` succeeds) every such entry is removed, otherwise a
fresh single-count entry is appended; the resulting list is written back
whole. -/
def toggleReaction (reactions : List Reaction) (uid emoji : String) : List Reaction :=
  if reactions.any (fun r => r.emoji == emoji && r.user_id == uid)
  then reactions.filter (fun r => !(r.emoji == emoji && r.user_id == uid))
  else reactions ++ [{ emoji := emoji, user_id := uid, count := 1 }]

/-- Claim C4: for every message, every user and every emoji, toggling the
reaction twice in sequence (react, then unreact) by that user with that
emoji returns the reaction collection of the message to its state before the
first toggle.  "React, then unreact" means the user does not already hold
this reaction, which is the hypothesis. -/
theorem toggleReaction_roundtrip (reactions : List Reaction) (uid emoji : String)
    (h : ∀ r ∈ reactions, ¬(r.emoji = emoji ∧ r.user_id = uid)) :
    toggleReaction (toggleReaction reactions uid emoji) uid emoji = reactions := by
  have hpred : ∀ r ∈ reactions, (r.emoji == emoji && r.user_id == uid) = false := by
    intro r hr
    simpa [not_and] using h r hr
  have hany1 : reactions.any (fun r => r.emoji == emoji && r.user_id == uid) = false := by
    rw [List.any_eq_false]
    intro r hr
    simp [hpred r hr]
  have hstep1 : toggleReaction reactions uid emoji =
      reactions ++ [{ emoji := emoji, user_id := uid, count := 1 }] := by
    simp [toggleReaction, hany1]
  rw [hstep1]
  have hany2 : (reactions ++ [({ emoji := emoji, user_id := uid, count := 1 } : Reaction)]).any
      (fun r => r.emoji == emoji && r.user_id == uid) = true := by
    simp [List.any_append]
  simp only [toggleReaction, hany2, if_true]
  rw [List.filter_append]
  have hkeep : reactions.filter (fun r => !(r.emoji == emoji && r.user_id == uid)) =
      reactions := by
    apply List.filter_eq_self.mpr
    intro r hr
    simp [hpred r hr]
  simp only [hkeep]
  simp

/-- An unrelated reaction held by another user. -/
def otherReaction : Reaction := { emoji := "y", user_id := "u2", count := 1 }

/-- Witness for claim C4 at a concrete collection: user `u1` reacting twice
with emoji `x` on a message that already carries an unrelated reaction
returns the collection to that prior state. -/
theorem toggleReaction_roundtrip_witness :
    toggleReaction (toggleReaction [otherReaction] "u1" "x") "u1" "x" = [otherReaction] :=
  toggleReaction_roundtrip [otherReaction] "u1" "x" (by decide)

/-- Membership characterization of the initial load: a message appears in
the fetched sequence exactly when it is the normalization of a non-deleted
row of the conversation. -/
theorem mem_fetchMessages_iff (table : List MessageRow) (conv : String) (m : Message) :
    m ∈ fetchMessages table conv ↔
      ∃ raw ∈ table, raw.conversation_id = conv ∧ raw.is_deleted = false ∧
        m = normalizeRow raw := by
  unfold fetchMessages
  constructor
  · intro hm
    rcases List.mem_map.mp hm with ⟨raw, hraw, hEq⟩
    have hfil : raw ∈ table.filter (fun r => r.conversation_id == conv && !r.is_deleted) :=
      (List.perm_insertionSort createdLe _).mem_iff.mp hraw
    rcases List.mem_filter.mp hfil with ⟨htab, hcond⟩
    refine ⟨raw, htab, ?_, ?_, hEq.symm⟩
    · have := (Bool.and_eq_true _ _).mp hcond
      exact beq_iff_eq.mp this.1
    · have := (Bool.and_eq_true _ _).mp hcond
      simpa using this.2
  · rintro ⟨raw, htab, hconv, hdel, rfl⟩
    refine List.mem_map.mpr ⟨raw, ?_, rfl⟩
    refine (List.perm_insertionSort createdLe _).mem_iff.mpr ?_
    refine List.mem_filter.mpr ⟨htab, ?_⟩
    simp [hconv, hdel]

/-- Claim C2: the initial load fetches only messages of the conversation
whose soft-delete flag is unset, returns them sorted ascending by creation
timestamp, normalizes the reaction sub-collection (a non-array reactions
field becomes the empty list; each entry is coerced with emoji and user
defaulting to the empty string and count defaulting to 1), and replaces the
local ordered sequence wholesale rather than merging into it. -/
theorem fetchMessages_sorted_filtered_normalized (table : List MessageRow) (conv : String)
    (s : ChatState) :
    (fetchMessages table conv).Pairwise (fun a b => a.created_at ≤ b.created_at) ∧
    (∀ m ∈ fetchMessages table conv, m.is_deleted = false ∧ m.conversation_id = conv) ∧
    (∀ m ∈ fetchMessages table conv,
        ∃ raw ∈ table, raw.conversation_id = conv ∧ raw.is_deleted = false ∧
          m = normalizeRow raw) ∧
    (∀ raw ∈ table, raw.conversation_id = conv → raw.is_deleted = false →
        normalizeRow raw ∈ fetchMessages table conv) ∧
    (∀ raw : MessageRow, raw.reactions = none → (normalizeRow raw).reactions = []) ∧
    (∀ raw : MessageRow, ∀ rs, raw.reactions = some rs →
        (normalizeRow raw).reactions = rs.map coerceReaction) ∧
    coerceReaction { emoji := none, user_id := none, count := none } =
      { emoji := "", user_id := "", count := 1 } ∧
    (loadMessages s table conv).messages = fetchMessages table conv := by
  refine ⟨?_, ?_, ?_, ?_, ?_, ?_, rfl, rfl⟩
  · have hsorted : (List.insertionSort createdLe
        (table.filter (fun m => m.conversation_id == conv && !m.is_deleted))).Pairwise
          createdLe :=
      List.sorted_insertionSort createdLe _
    unfold fetchMessages
    rw [List.pairwise_map]
    exact hsorted.imp (fun h => h)
  · intro m hm
    rcases (mem_fetchMessages_iff table conv m).mp hm with ⟨raw, _, hconv, hdel, rfl⟩
    exact ⟨hdel, hconv⟩
  · intro m hm
    exact (mem_fetchMessages_iff table conv m).mp hm
  · intro raw htab hconv hdel
    exact (mem_fetchMessages_iff table conv (normalizeRow raw)).mpr
      ⟨raw, htab, hconv, hdel, rfl⟩
  · intro raw hraw
    simp [normalizeRow, hraw]
  · intro raw rs hraw
    simp [normalizeRow, hraw]

/-- A stored row carrying a malformed reaction entry, out of creation order
relative to `olderRow`. -/
def newerRow : MessageRow :=
  { id := "m2"
    conversation_id := "c1"
    sender_id := "u2"
    content := "second"
    message_type := "text"
    translation := none
    created_at := 9
    is_read := false
    edited_at := none
    parent_message_id := none
    is_pinned := false
    reactions := some [{ emoji := none, user_id := none, count := none }]
    is_deleted := false
    deleted_at := none }

/-- An older stored row whose reactions column is not an array. -/
def olderRow : MessageRow :=
  { newerRow with
    id := "m1"
    content := "first"
    created_at := 2
    reactions := none }

/-- Witness for claim C2 at a concrete two-row table listed newest-first:
the fetched sequence is sorted ascending by creation timestamp, the fetched
copy of the older row is not soft-deleted, and the malformed reaction entry
of the newer row is coerced to the default record. -/
theorem fetchMessages_sorted_filtered_normalized_witness :
    (fetchMessages [newerRow, olderRow] "c1").Pairwise
        (fun a b => a.created_at ≤ b.created_at) ∧
    (normalizeRow olderRow).is_deleted = false ∧
    (normalizeRow newerRow).reactions = [{ emoji := "", user_id := "", count := 1 }] := by
  have h := fetchMessages_sorted_filtered_normalized [newerRow, olderRow] "c1" inflightState
  refine ⟨h.1, ?_, ?_⟩
  · exact (h.2.1 (normalizeRow olderRow)
      (h.2.2.2.1 olderRow (by decide) rfl rfl)).1
  · have := h.2.2.2.2.2.1 newerRow [{ emoji := none, user_id := none, count := none }] rfl
    rw [this]
    decide

/-- The backend effect of the edit commit on one stored row
(`update({content, edited_at}).eq("id", editingMessageId)`): the matching
row gets the new content and a fresh edit timestamp; any other row is left
alone. -/
def editRow (mid c : String) (t : Nat) (m : MessageRow) : MessageRow :=
  if m.id == mid then { m with content := c, edited_at := some t } else m

/-- The edit commit applied to the whole `messages` table. -/
def applyEditUpdate (table : List MessageRow) (mid c : String) (t : Nat) :
    List MessageRow :=
  table.map (editRow mid c t)

/-- Claim C5: committing an edit updates the content of the target message,
sets a non-null edit timestamp, and leaves every other field unchanged - in
particular its creation timestamp is preserved - and the in-place
replacement performed by the realtime update merge keeps the message at its
original position in the ordered sequence. -/
theorem edit_preserves_fields_and_position (m : MessageRow) (mid c : String) (t : Nat)
    (msgs : List Message) (updated : Message) (i : Nat) (hi : i < msgs.length) :
    (m.id = mid →
      (editRow mid c t m).content = c ∧
      (editRow mid c t m).edited_at = some t ∧
      (editRow mid c t m).edited_at ≠ none ∧
      (editRow mid c t m).created_at = m.created_at ∧
      (editRow mid c t m).id = m.id ∧
      (editRow mid c t m).conversation_id = m.conversation_id ∧
      (editRow mid c t m).sender_id = m.sender_id ∧
      (editRow mid c t m).message_type = m.message_type ∧
      (editRow mid c t m).translation = m.translation ∧
      (editRow mid c t m).is_read = m.is_read ∧
      (editRow mid c t m).parent_message_id = m.parent_message_id ∧
      (editRow mid c t m).is_pinned = m.is_pinned ∧
      (editRow mid c t m).reactions = m.reactions ∧
      (editRow mid c t m).is_deleted = m.is_deleted ∧
      (editRow mid c t m).deleted_at = m.deleted_at) ∧
    (m.id ≠ mid → editRow mid c t m = m) ∧
    (mergeUpdateEvent msgs updated).length = msgs.length ∧
    ((msgs.get ⟨i, hi⟩).id = updated.id →
      (mergeUpdateEvent msgs updated).get ⟨i, by simpa [mergeUpdateEvent] using hi⟩ =
        updated) ∧
    ((msgs.get ⟨i, hi⟩).id ≠ updated.id →
      (mergeUpdateEvent msgs updated).get ⟨i, by simpa [mergeUpdateEvent] using hi⟩ =
        msgs.get ⟨i, hi⟩) := by
  refine ⟨?_, ?_, ?_, ?_, ?_⟩
  · intro h
    simp [editRow, h]
  · intro h
    simp [editRow, h]
  · simp [mergeUpdateEvent]
  · intro h
    simp [mergeUpdateEvent, List.get_eq_getElem, List.getElem_map] at h ⊢
    simp [h]
  · intro h
    simp [mergeUpdateEvent, List.get_eq_getElem, List.getElem_map] at h ⊢
    simp [h]

/-- A stored row about to be edited by its author. -/
def rowBeforeEdit : MessageRow :=
  { id := "e1"
    conversation_id := "c1"
    sender_id := "me"
    content := "old words"
    message_type := "text"
    translation := none
    created_at := 4
    is_read := true
    edited_at := none
    parent_message_id := none
    is_pinned := false
    reactions := none
    is_deleted := false
    deleted_at := none }

/-- The local copies held when the edit echo arrives: an unrelated earlier
message and the target. -/
def bystanderMsg : Message :=
  { id := "e0"
    conversation_id := "c1"
    sender_id := "peer"
    content := "untouched"
    message_type := "text"
    translation := none
    created_at := 3
    is_read := true
    edited_at := none
    parent_message_id := none
    is_pinned := false
    reactions := []
    is_deleted := false }

/-- The UPDATE payload carrying the edited row. -/
def editedPayload : Message :=
  { bystanderMsg with id := "e1", content := "new words", created_at := 4, edited_at := some 9 }

/-- The stale local copy of the target message before the edit echo. -/
def staleEditTarget : Message :=
  { editedPayload with content := "old words", edited_at := none }

/-- Witness for claim C5 at a concrete edit: the backend row keeps its
creation timestamp and gains the new content and edit timestamp, and the
merge leaves the edited message at its original position (index 1) while
index 0 is untouched. -/
theorem edit_preserves_fields_and_position_witness :
    (editRow "e1" "new words" 9 rowBeforeEdit).content = "new words" ∧
    (editRow "e1" "new words" 9 rowBeforeEdit).edited_at = some 9 ∧
    (editRow "e1" "new words" 9 rowBeforeEdit).created_at = rowBeforeEdit.created_at ∧
    (mergeUpdateEvent [bystanderMsg, staleEditTarget] editedPayload).get ⟨1, by decide⟩ =
      editedPayload ∧
    (mergeUpdateEvent [bystanderMsg, staleEditTarget] editedPayload).get ⟨0, by decide⟩ =
      bystanderMsg := by
  have h := edit_preserves_fields_and_position rowBeforeEdit "e1" "new words" 9
    [bystanderMsg, staleEditTarget] editedPayload 1 (by decide)
  have h0 := edit_preserves_fields_and_position rowBeforeEdit "e1" "new words" 9
    [bystanderMsg, staleEditTarget] editedPayload 0 (by decide)
  exact ⟨(h.1 rfl).1, (h.1 rfl).2.1, (h.1 rfl).2.2.2.1,
    h.2.2.2.1 (by decide), h0.2.2.2.2 (by decide)⟩

/-- The backend effect of `handleDeleteMessage` on one stored row
(`update({is_deleted: true, deleted_at}).eq("id", messageId)`). -/
def softDeleteRow (mid : String) (t : Nat) (m : MessageRow) : MessageRow :=
  if m.id == mid then { m with is_deleted := true, deleted_at := some t } else m

/-- The soft delete applied to the whole `messages` table. -/
def applySoftDelete (table : List MessageRow) (mid : String) (t : Nat) :
    List MessageRow :=
  table.map (softDeleteRow mid t)

/-- The optimistic local effect of `handleDeleteMessage`:
`setMessages(current.filter(msg => msg.id !== messageId))`, applied without
waiting for the realtime echo. -/
def removeLocalMessage (msgs : List Message) (mid : String) : List Message :=
  msgs.filter (fun m => m.id != mid)

/-- Claim C6: the delete operation sets the soft-delete flag and deletion
timestamp on the backend record and immediately removes exactly the target
message from the local ordered sequence, leaving all other entries in order;
a subsequent fresh initial load of the conversation does not return the
deleted message. -/
theorem softDelete_optimistic_removal_and_fetch_excludes (msgs : List Message)
    (table : List MessageRow) (mid : String) (t : Nat) (conv : String) :
    (∀ m ∈ applySoftDelete table mid t, m.id = mid →
        m.is_deleted = true ∧ m.deleted_at = some t) ∧
    (∀ m ∈ removeLocalMessage msgs mid, m.id ≠ mid) ∧
    (removeLocalMessage msgs mid).Sublist msgs ∧
    (∀ m ∈ msgs, m.id ≠ mid → m ∈ removeLocalMessage msgs mid) ∧
    (∀ m ∈ fetchMessages (applySoftDelete table mid t) conv, m.id ≠ mid) := by
  refine ⟨?_, ?_, List.filter_sublist _, ?_, ?_⟩
  · intro m hm hid
    rcases List.mem_map.mp hm with ⟨raw, _, rfl⟩
    by_cases hcase : raw.id = mid
    · simp [softDeleteRow, hcase]
    · exfalso
      exact hcase (by simpa [softDeleteRow, hcase] using hid)
  · intro m hm
    have hcond := (List.mem_filter.mp hm).2
    simpa using hcond
  · intro m hm hne
    exact List.mem_filter.mpr ⟨hm, by simpa using hne⟩
  · intro m hm hid
    rcases (mem_fetchMessages_iff _ conv m).mp hm with ⟨raw, hrawmem, _, hdel, rfl⟩
    rcases List.mem_map.mp hrawmem with ⟨orig, _, rfl⟩
    by_cases hcase : orig.id = mid
    · have : (softDeleteRow mid t orig).is_deleted = true := by
        simp [softDeleteRow, hcase]
      rw [hdel] at this
      exact Bool.false_ne_true this
    · exact hcase (by simpa [normalizeRow, softDeleteRow, hcase] using hid)

/-- The local copy of the message the user deletes. -/
def doomedMsg : Message :=
  { bystanderMsg with id := "d1", content := "remove me", sender_id := "me" }

/-- A neighbouring local message that must survive the optimistic removal. -/
def survivorMsg : Message :=
  { bystanderMsg with id := "d2", content := "still here", created_at := 8 }

/-- The stored row backing the deleted message. -/
def doomedRow : MessageRow :=
  { rowBeforeEdit with id := "d1", content := "remove me" }

/-- Witness for claim C6 at a concrete pair of messages: the neighbour stays
in the optimistically filtered sequence and the backend row of the target
carries the soft-delete flag and timestamp. -/
theorem softDelete_optimistic_removal_and_fetch_excludes_witness :
    survivorMsg ∈ removeLocalMessage [doomedMsg, survivorMsg] "d1" ∧
    (softDeleteRow "d1" 5 doomedRow).is_deleted = true ∧
    (softDeleteRow "d1" 5 doomedRow).deleted_at = some 5 := by
  have h := softDelete_optimistic_removal_and_fetch_excludes [doomedMsg, survivorMsg]
    [doomedRow] "d1" 5 "c1"
  refine ⟨h.2.2.2.1 survivorMsg (by decide) (by decide), ?_, ?_⟩
  · exact (h.1 (softDeleteRow "d1" 5 doomedRow) (by decide) (by decide)).1
  · exact (h.1 (softDeleteRow "d1" 5 doomedRow) (by decide) (by decide)).2

/-- The backend effect of `markMessagesAsRead` on one stored row: the bulk
update `update({is_read: true})` filtered by
`.eq("conversation_id", ...)`, `.neq("sender_id", user.id)` and
`.eq("is_read", false)`. -/
def readRow (conv uid : String) (m : MessageRow) : MessageRow :=
  if m.conversation_id == conv && m.sender_id != uid && m.is_read == false
  then { m with is_read := true } else m

/-- The one bulk read-receipt update applied to the whole `messages` table,
as issued when the chat page mounts. -/
def markMessagesAsRead (table : List MessageRow) (conv uid : String) :
    List MessageRow :=
  table.map (readRow conv uid)

/-- A row matched by all three filters of the bulk update gets its read flag
set and nothing else. -/
theorem readRow_marks (conv uid : String) (m : MessageRow) (h1 : m.conversation_id = conv)
    (h2 : m.sender_id ≠ uid) (h3 : m.is_read = false) :
    readRow conv uid m = { m with is_read := true } := by
  have hcond : (m.conversation_id == conv && m.sender_id != uid && m.is_read == false) =
      true := by
    simp [h1, h2, h3]
  unfold readRow
  rw [if_pos hcond]

/-- A row failing any of the three filters of the bulk update is untouched. -/
theorem readRow_skips (conv uid : String) (m : MessageRow)
    (h : ¬(m.conversation_id = conv ∧ m.sender_id ≠ uid ∧ m.is_read = false)) :
    readRow conv uid m = m := by
  have hcond : (m.conversation_id == conv && m.sender_id != uid && m.is_read == false) =
      false := by
    by_cases h1 : m.conversation_id = conv
    · by_cases h2 : m.sender_id = uid
      · simp [h2]
      · by_cases h3 : m.is_read
        · simp [h3]
        · exact absurd ⟨h1, h2, by simpa using h3⟩ h
    · simp [h1]
  unfold readRow
  rw [if_neg (by rw [hcond]; exact Bool.false_ne_true)]

/-- Claim C9: on entering a conversation, exactly the messages of that
conversation that were not sent by the current user and whose read flag is
unset are marked read in one bulk update; messages sent by the current user
and messages already marked read are left unchanged, and a marked row
changes in no field other than the read flag. -/
theorem markMessagesAsRead_exactly_unread_from_others (table : List MessageRow)
    (conv uid : String) (i : Nat) (hi : i < table.length) :
    (markMessagesAsRead table conv uid).length = table.length ∧
    ((table.get ⟨i, hi⟩).conversation_id = conv → (table.get ⟨i, hi⟩).sender_id ≠ uid →
      (table.get ⟨i, hi⟩).is_read = false →
      (markMessagesAsRead table conv uid).get ⟨i, by simpa [markMessagesAsRead] using hi⟩ =
        { table.get ⟨i, hi⟩ with is_read := true }) ∧
    (¬((table.get ⟨i, hi⟩).conversation_id = conv ∧ (table.get ⟨i, hi⟩).sender_id ≠ uid ∧
        (table.get ⟨i, hi⟩).is_read = false) →
      (markMessagesAsRead table conv uid).get ⟨i, by simpa [markMessagesAsRead] using hi⟩ =
        table.get ⟨i, hi⟩) := by
  have hget : (markMessagesAsRead table conv uid).get
      ⟨i, by simpa [markMessagesAsRead] using hi⟩ = readRow conv uid (table.get ⟨i, hi⟩) := by
    simp [markMessagesAsRead, List.get_eq_getElem, List.getElem_map]
  refine ⟨by simp [markMessagesAsRead], ?_, ?_⟩
  · intro h1 h2 h3
    rw [hget, readRow_marks conv uid _ h1 h2 h3]
  · intro h
    rw [hget, readRow_skips conv uid _ h]

/-- An unread stored row sent by the peer, as found on entering the
conversation. -/
def unreadPeerRow : MessageRow :=
  { rowBeforeEdit with id := "r1", sender_id := "peer", is_read := false }

/-- A row the current user sent, which the bulk update must not touch. -/
def ownSentRow : MessageRow :=
  { rowBeforeEdit with id := "r2", sender_id := "me", is_read := false }

/-- Witness for claim C9 at a concrete two-row table: the unread peer
message at index 0 is marked read and nothing else about it changes, while
the row the current user sent, at index 1, is left exactly as it was. -/
theorem markMessagesAsRead_exactly_unread_from_others_witness :
    (markMessagesAsRead [unreadPeerRow, ownSentRow] "c1" "me").get ⟨0, by decide⟩ =
      { unreadPeerRow with is_read := true } ∧
    (markMessagesAsRead [unreadPeerRow, ownSentRow] "c1" "me").get ⟨1, by decide⟩ =
      ownSentRow := by
  have h0 := markMessagesAsRead_exactly_unread_from_others [unreadPeerRow, ownSentRow]
    "c1" "me" 0 (by decide)
  have h1 := markMessagesAsRead_exactly_unread_from_others [unreadPeerRow, ownSentRow]
    "c1" "me" 1 (by decide)
  exact ⟨h0.2.1 rfl (by decide) rfl, h1.2.2 (by decide)⟩

/-- A row of the `typing_indicators` table; the schema declares
UNIQUE(conversation_id, user_id). -/
structure TypingRow where
  conversation_id : String
  user_id : String
  started_at : Nat
deriving DecidableEq, Repr

/-- The upsert issued on each keystroke, keyed by the UNIQUE
(conversation_id, user_id) constraint of the table: refresh the timestamp of
the row for the pair when one exists, else append a new row. -/
def upsertTypingRow (table : List TypingRow) (conv uid : String) (t : Nat) :
    List TypingRow :=
  if table.any (fun r => r.conversation_id == conv && r.user_id == uid)
  then table.map (fun r =>
    if r.conversation_id == conv && r.user_id == uid then { r with started_at := t } else r)
  else table ++ [{ conversation_id := conv, user_id := uid, started_at := t }]

/-- The `delete().eq("conversation_id", ...).eq("user_id", ...)` issued when
the auto-clear timer fires (and on send). -/
def deleteTypingTableRow (table : List TypingRow) (conv uid : String) : List TypingRow :=
  table.filter (fun r => !(r.conversation_id == conv && r.user_id == uid))

/-- The client-side typing bookkeeping: the backend table together with the
pending auto-clear timer (`typingTimeoutRef`), recorded as the instant at
which it will fire when armed. -/
structure TypingState where
  table : List TypingRow
  timerFiresAt : Option Nat
deriving DecidableEq, Repr

/-- `handleTyping` in `Chat.tsx`: cancel any pending auto-clear timer
(`clearTimeout`), upsert the typing row of the local user with a fresh
timestamp, and arm a timer that will clear the row 3000 milliseconds
later (`setTimeout(..., 3000)`). -/
def handleTyping (s : TypingState) (conv uid : String) (now : Nat) : TypingState :=
  { table := upsertTypingRow s.table conv uid now
    timerFiresAt := some (now + 3000) }

/-- The armed timeout firing: delete the typing row of the local user and
leave no timer pending. -/
def fireTypingTimer (s : TypingState) (conv uid : String) : TypingState :=
  { table := deleteTypingTableRow s.table conv uid, timerFiresAt := none }

/-- After the keystroke upsert, the table holds a row for the pair carrying
the fresh timestamp. -/
theorem upsert_has_fresh_row (table : List TypingRow) (conv uid : String) (t : Nat) :
    (upsertTypingRow table conv uid t).any
      (fun r => r.conversation_id == conv && r.user_id == uid && r.started_at == t) =
      true := by
  unfold upsertTypingRow
  by_cases h : table.any (fun r => r.conversation_id == conv && r.user_id == uid) = true
  · rw [if_pos h]
    rcases List.any_eq_true.mp h with ⟨r, hr, hcond⟩
    apply List.any_eq_true.mpr
    refine ⟨{ r with started_at := t }, ?_, ?_⟩
    · refine List.mem_map.mpr ⟨r, hr, ?_⟩
      exact if_pos hcond
    · have hc := (Bool.and_eq_true _ _).mp hcond
      simp [hc.1, hc.2]
  · rw [if_neg h]
    apply List.any_eq_true.mpr
    exact ⟨{ conversation_id := conv, user_id := uid, started_at := t }, by simp, by simp⟩

/-- After the auto-clear delete, no row for the pair remains. -/
theorem deleteTyping_clears (table : List TypingRow) (conv uid : String) :
    (deleteTypingTableRow table conv uid).any
      (fun r => r.conversation_id == conv && r.user_id == uid) = false := by
  rw [List.any_eq_false]
  intro r hr
  rcases List.mem_filter.mp hr with ⟨_, hcond⟩
  intro habs
  rcases (Bool.and_eq_true _ _).mp habs with ⟨hc1, hc2⟩
  rcases (by simpa using hcond : ¬r.conversation_id = conv ∨ ¬r.user_id = uid) with hne | hne
  · exact hne (beq_iff_eq.mp hc1)
  · exact hne (beq_iff_eq.mp hc2)

/-- Claim C8: for every keystroke in a conversation, the typing-indicator
handler cancels any pending auto-clear timer, upserts the typing row of the
local user keyed by (conversation, user) with a fresh timestamp, and
restarts a timer that deletes that row 3000 milliseconds later; hence if no
further keystroke occurs within 3 seconds, the timer fires and the row is
deleted. -/
theorem handleTyping_timer_lifecycle (s : TypingState) (conv uid : String) (now : Nat) :
    (handleTyping s conv uid now).timerFiresAt = some (now + 3000) ∧
    ((handleTyping s conv uid now).table.any
      (fun r => r.conversation_id == conv && r.user_id == uid && r.started_at == now)) =
      true ∧
    ((fireTypingTimer (handleTyping s conv uid now) conv uid).table.any
      (fun r => r.conversation_id == conv && r.user_id == uid)) = false ∧
    (fireTypingTimer (handleTyping s conv uid now) conv uid).timerFiresAt = none :=
  ⟨rfl, upsert_has_fresh_row s.table conv uid now, deleteTyping_clears _ conv uid, rfl⟩

/-- A row of the two-party `conversations` table. -/
structure Conversation where
  id : String
  participant1_id : String
  participant2_id : String
deriving DecidableEq, Repr

/-- The existence filter of `handleStartChat`: the pair matches in either
participant order
(`.or(and(participant1.eq.me, participant2.eq.other), and(participant1.eq.other, participant2.eq.me))`). -/
def pairMatches (uid ouid : String) (c : Conversation) : Bool :=
  (c.participant1_id == uid && c.participant2_id == ouid) ||
  (c.participant1_id == ouid && c.participant2_id == uid)

/-- The `.maybeSingle()` of the client library: the query must return zero
or one row.  With zero rows the data is `none`; with exactly one row it is
that row; with several rows the library reports an error and the data is
again `none` - and since `handleStartChat` destructures only `data` and
never checks `error`, the several-row case is indistinguishable from "not
found" there. -/
def maybeSingle (rows : List Conversation) : Option Conversation :=
  if rows.length == 1 then rows.head? else none

/-- The outcome of `handleStartChat`: the conversations table afterwards,
the conversation id navigated to, and whether an insert was issued. -/
structure StartChatResult where
  table : List Conversation
  navigatedTo : String
  insertIssued : Bool
deriving DecidableEq, Repr

/-- `handleStartChat` in the online-users panel: look up an existing
conversation with the pair in either participant order through
`.maybeSingle()`; navigate to it when found, otherwise insert a new row
(the backend assigns it the fresh identifier `newId`) and navigate to
that. -/
def handleStartChat (table : List Conversation) (uid ouid newId : String) :
    StartChatResult :=
  match maybeSingle (table.filter (pairMatches uid ouid)) with
  | some c => { table := table, navigatedTo := c.id, insertIssued := false }
  | none =>
      { table := table ++ [{ id := newId, participant1_id := uid, participant2_id := ouid }],
        navigatedTo := newId, insertIssued := true }

/-- A conversation between alice and bob in one participant order. -/
def firstDupConv : Conversation :=
  { id := "c1", participant1_id := "alice", participant2_id := "bob" }

/-- A duplicate conversation for the same pair in the other order, as the
acknowledged creation race can leave behind. -/
def secondDupConv : Conversation :=
  { id := "c2", participant1_id := "bob", participant2_id := "alice" }

/-- Counterexample to claim C7 as stated: two conversations between alice
and bob already exist (one per participant order), yet starting a chat
issues an insert and navigates to a fresh third row - the zero-or-one-row
lookup yields no data for a two-row result and its error is never checked,
so neither existing identifier is reused. -/
theorem startChat_duplicate_pair_still_inserts :
    pairMatches "alice" "bob" firstDupConv = true ∧
    pairMatches "alice" "bob" secondDupConv = true ∧
    handleStartChat [firstDupConv, secondDupConv] "alice" "bob" "c3" =
      { table := [firstDupConv, secondDupConv,
          { id := "c3", participant1_id := "alice", participant2_id := "bob" }],
        navigatedTo := "c3", insertIssued := true } := by
  decide

/-- Claim C7 as amended: when exactly one two-party conversation between the
users exists - with the pair in either participant order - starting a
conversation reuses its identifier and issues no insert; when none exists, a
new row is inserted and navigated to.  (When several exist, the lookup
yields no data and a new row is inserted, as the counterexample shows.) -/
theorem startChat_unique_existing_reused (table : List Conversation)
    (uid ouid newId : String) :
    ((table.filter (pairMatches uid ouid)).length = 1 →
      ∃ c ∈ table, pairMatches uid ouid c = true ∧
        handleStartChat table uid ouid newId =
          { table := table, navigatedTo := c.id, insertIssued := false }) ∧
    (table.filter (pairMatches uid ouid) = [] →
      handleStartChat table uid ouid newId =
        { table := table ++ [{ id := newId, participant1_id := uid, participant2_id := ouid }],
          navigatedTo := newId, insertIssued := true }) := by
  constructor
  · intro h
    rcases List.length_eq_one.mp h with ⟨c, hc⟩
    have hmem : c ∈ table.filter (pairMatches uid ouid) := by
      rw [hc]
      simp
    refine ⟨c, (List.mem_filter.mp hmem).1, (List.mem_filter.mp hmem).2, ?_⟩
    unfold handleStartChat maybeSingle
    rw [hc]
    rfl
  · intro h
    unfold handleStartChat maybeSingle
    rw [h]
    rfl

/-- Witness for the amended claim C7 with exactly one existing conversation:
its identifier c1 is reused, the table is unchanged, no insert is issued. -/
theorem startChat_unique_existing_reused_witness :
    handleStartChat [firstDupConv] "alice" "bob" "c9" =
      { table := [firstDupConv], navigatedTo := "c1", insertIssued := false } := by
  rcases (startChat_unique_existing_reused [firstDupConv] "alice" "bob" "c9").1 (by decide)
    with ⟨c, hc, _, heq⟩
  have hcval : c = firstDupConv := by simpa using hc
  subst hcval
  rw [heq]
  decide

end SignBridge
